import Mathlib

/-!
# Verification of the `tick::Benchmark` micro-benchmarking core (src/utils.hpp)

Shallow embedding of the statistical benchmarking harness in `namespace tick`
of `src/utils.hpp`.  Durations are measured by the steady clock in the C++
source; here every measured quantity (raw batch durations, the calibration
overhead) is an explicit parameter, and `double` arithmetic is modelled
exactly over `ℚ` (the claims under scrutiny are structural and all concrete
constants involved — 0.25, 0.5, 0.75, 1.5 — are exactly representable, and
the percentile indices 0.9, 0.95, 0.99 never change their floor under
double rounding).  `std::sqrt` is modelled by `Real.sqrt`.
-/

namespace tick

unseal Rat.inv Rat.mul Rat.add Rat.sub in
/-- `Benchmark::mean`: `sum / v.size()` accumulated over the vector.
(For the empty vector the C++ code divides 0.0 by 0; callers guard.) -/
def mean (v : List ℚ) : ℚ :=
  v.sum / (v.length : ℚ)

/-- `Benchmark::stddev`: `sqrt(Σ (x-avg)*(x-avg) / v.size())`,
the population standard deviation (divisor `N`). -/
noncomputable def stddev (v : List ℚ) (avg : ℚ) : ℝ :=
  Real.sqrt ((((v.map (fun x => (x - avg) * (x - avg))).sum : ℚ) : ℝ) / (v.length : ℝ))

/-- The ascending sort `std::sort(v.begin(), v.end())` performs on the
by-value copy (sorted permutations are unique, so the choice of algorithm
is irrelevant). -/
def csort (v : List ℚ) : List ℚ :=
  v.insertionSort (· ≤ ·)

/-- The index `static_cast<size_t>(p * (v.size() - 1))` of
`Benchmark::percentile`: truncation of a non-negative double is its floor.
(`v.size() - 1` is `size_t` arithmetic; for the empty vector it wraps to
2^64−1 and the subsequent read is out of bounds — callers guard, see the
safety claim.) -/
def pidx (n : ℕ) (p : ℚ) : ℕ :=
  ⌊p * ((n - 1 : ℕ) : ℚ)⌋.toNat

/-- `Benchmark::percentile`: sort the by-value copy ascending and read the
element at index `pidx`. -/
def percentile (v : List ℚ) (p : ℚ) : ℚ :=
  (csort v).getD (pidx v.length p) 0

/-- `Benchmark::filter_outliers`: sort the by-value copy, take
`q1 = percentile(v, 0.25)`, `q3 = percentile(v, 0.75)`, `iqr = q3 - q1`,
and keep (in order) the sorted values inside the closed Tukey fences
`[q1 - 1.5*iqr, q3 + 1.5*iqr]`. -/
def filter_outliers (v : List ℚ) : List ℚ :=
  let s := csort v
  let q1 := percentile s (1/4)
  let q3 := percentile s (3/4)
  let iqr := q3 - q1
  let lo := q1 - 3/2 * iqr
  let hi := q3 + 3/2 * iqr
  s.filter (fun x => decide (lo ≤ x ∧ x ≤ hi))

/-- The benchmark state: the three configuration fields and the `samples`
vector of corrected durations (milliseconds). -/
structure Benchmark where
  iterations : ℕ
  warmup : ℕ
  batch_size : ℕ
  samples : List ℚ

/-- `Benchmark::measure_overhead`: the mean of `iterations` empty timed
intervals; the interval durations are clock readings, supplied here as the
parameter `d`. -/
def Benchmark.measure_overhead (b : Benchmark) (d : ℕ → ℚ) : ℚ :=
  ((List.range b.iterations).map d).sum / (b.iterations : ℚ)

/-- `Benchmark::run`: clears `samples`, then for each of `iterations`
timed batches appends `corrected < 0 ? 0 : corrected` where
`corrected = raw i - overhead` and `raw i` is the measured duration of the
`i`-th batch in milliseconds (a clock reading, supplied as a parameter;
the warmup loop performs no mutation of `samples`). -/
def Benchmark.run (b : Benchmark) (raw : ℕ → ℚ) (overhead : ℚ) : Benchmark :=
  { b with samples :=
      (List.range b.iterations).map (fun i =>
        let corrected := raw i - overhead
        if corrected < 0 then 0 else corrected) }

/-- `*std::min_element` on a non-empty vector (0 as an unused default for
the guarded empty case). -/
def listMin (v : List ℚ) : ℚ :=
  match v with
  | [] => 0
  | x :: xs => xs.foldl min x

/-- `*std::max_element` on a non-empty vector. -/
def listMax (v : List ℚ) : ℚ :=
  match v with
  | [] => 0
  | x :: xs => xs.foldl max x

/-- The derived report snapshot: the exact fields `print_stats` prints and
`export_csv` writes, in source order. -/
structure Report where
  iterations : ℕ
  batch_size : ℕ
  samples_used : ℕ
  min_t : ℚ
  max_t : ℚ
  avg : ℚ
  sd : ℝ
  p50 : ℚ
  p90 : ℚ
  p95 : ℚ
  p99 : ℚ
  per_op_avg : ℚ

/-- The statistics block shared by `print_stats` and `export_csv`: filter
the outliers of `samples` and compute every reported figure from the
cleaned copy. -/
noncomputable def Benchmark.report (b : Benchmark) : Report :=
  let clean := filter_outliers b.samples
  let avg := mean clean
  { iterations := b.iterations
    batch_size := b.batch_size
    samples_used := clean.length
    min_t := listMin clean
    max_t := listMax clean
    avg := avg
    sd := stddev clean avg
    p50 := percentile clean (50/100)
    p90 := percentile clean (90/100)
    p95 := percentile clean (95/100)
    p99 := percentile clean (99/100)
    per_op_avg := avg / (b.batch_size : ℚ) }

/-- `Benchmark::print_stats`: early-returns with no output when `samples`
is empty, otherwise emits the report block (modelled as the emitted
snapshot; `none` = no console output). -/
noncomputable def Benchmark.print_stats (b : Benchmark) : Option Report :=
  if b.samples = [] then none else some b.report

/-- `Benchmark::CsvWriteMode`. -/
inductive CsvWriteMode where
  | Truncate
  | Append
deriving DecidableEq

/-- One line of the CSV file: the fixed header, or a data row carrying the
report snapshot. -/
inductive CsvLine where
  | header
  | row (r : Report)

/-- `Benchmark::export_csv`: the file is `none` when `filename` does not
exist, `some lines` otherwise; `canOpen` models whether the
`std::ofstream` open succeeds.  Empty `samples` early-returns before
touching the file; the header is written only when `mode` is not Append or
the file did not exist at the pre-open existence check; Truncate opens
with `std::ios::trunc` (discarding prior contents) while Append keeps
them; then one data row is appended. -/
noncomputable def Benchmark.export_csv (b : Benchmark) (mode : CsvWriteMode)
    (canOpen : Bool) (fs : Option (List CsvLine)) : Option (List CsvLine) :=
  if b.samples = [] then fs
  else
    let write_header := ¬(mode = CsvWriteMode.Append ∧ fs.isSome)
    if canOpen = false then fs
    else
      let base : List CsvLine :=
        if mode = CsvWriteMode.Append then fs.getD [] else []
      some (base ++ (if write_header then [CsvLine.header] else []) ++
        [CsvLine.row b.report])

end tick

namespace tick

/-! ## Helper lemmas -/

lemma csort_sorted (v : List ℚ) : (csort v).Sorted (· ≤ ·) :=
  List.sorted_insertionSort _ v

lemma csort_perm (v : List ℚ) : List.Perm (csort v) v :=
  List.perm_insertionSort _ v

lemma csort_length (v : List ℚ) : (csort v).length = v.length :=
  (csort_perm v).length_eq

lemma csort_eq_of_sorted {v : List ℚ} (h : v.Sorted (· ≤ ·)) : csort v = v :=
  List.eq_of_perm_of_sorted (csort_perm v) (csort_sorted v) h

lemma csort_idem (v : List ℚ) : csort (csort v) = csort v :=
  csort_eq_of_sorted (csort_sorted v)

lemma pidx_le {n : ℕ} (p : ℚ) (h1 : p ≤ 1) : pidx n p ≤ n - 1 := by
  have hc : (0 : ℚ) ≤ ((n - 1 : ℕ) : ℚ) := Nat.cast_nonneg _
  have hle : p * ((n - 1 : ℕ) : ℚ) ≤ ((n - 1 : ℕ) : ℚ) := by
    calc p * ((n - 1 : ℕ) : ℚ) ≤ 1 * ((n - 1 : ℕ) : ℚ) :=
          mul_le_mul_of_nonneg_right h1 hc
      _ = ((n - 1 : ℕ) : ℚ) := one_mul _
  have hf : ⌊p * ((n - 1 : ℕ) : ℚ)⌋ ≤ ((n - 1 : ℕ) : ℤ) := by
    calc ⌊p * ((n - 1 : ℕ) : ℚ)⌋ ≤ ⌊((n - 1 : ℕ) : ℚ)⌋ := Int.floor_le_floor hle
      _ = ((n - 1 : ℕ) : ℤ) := Int.floor_natCast _
  exact Int.toNat_le.mpr hf

lemma pidx_lt {n : ℕ} (hn : n ≠ 0) (p : ℚ) (h1 : p ≤ 1) : pidx n p < n :=
  lt_of_le_of_lt (pidx_le p h1) (Nat.sub_lt (Nat.pos_of_ne_zero hn) one_pos)

lemma pidx_mono {n : ℕ} {p q : ℚ} (hpq : p ≤ q) : pidx n p ≤ pidx n q := by
  have hc : (0 : ℚ) ≤ ((n - 1 : ℕ) : ℚ) := Nat.cast_nonneg _
  exact Int.toNat_le_toNat (Int.floor_le_floor (mul_le_mul_of_nonneg_right hpq hc))

lemma length_ne_zero {v : List ℚ} (hv : v ≠ []) : v.length ≠ 0 :=
  fun h => hv (List.eq_nil_of_length_eq_zero h)

lemma percentile_eq_get {v : List ℚ} (hv : v ≠ []) {p : ℚ} (h1 : p ≤ 1) :
    ∃ h : pidx v.length p < (csort v).length,
      percentile v p = (csort v).get ⟨pidx v.length p, h⟩ := by
  have hlt : pidx v.length p < (csort v).length := by
    rw [csort_length]; exact pidx_lt (length_ne_zero hv) p h1
  exact ⟨hlt, List.getD_eq_get _ _ hlt⟩

lemma percentile_mem {v : List ℚ} (hv : v ≠ []) {p : ℚ} (h1 : p ≤ 1) :
    percentile v p ∈ v := by
  obtain ⟨h, hp⟩ := percentile_eq_get hv h1
  rw [hp]
  exact (csort_perm v).mem_iff.mp (List.get_mem _ _ _)

lemma percentile_mono {v : List ℚ} (hv : v ≠ []) {p q : ℚ} (hpq : p ≤ q)
    (hq : q ≤ 1) : percentile v p ≤ percentile v q := by
  obtain ⟨hp1, hp2⟩ := percentile_eq_get hv (le_trans hpq hq)
  obtain ⟨hq1, hq2⟩ := percentile_eq_get hv hq
  rw [hp2, hq2]
  exact (csort_sorted v).rel_get_of_le (by simpa using pidx_mono hpq)

lemma percentile_csort (v : List ℚ) (p : ℚ) :
    percentile (csort v) p = percentile v p := by
  unfold percentile
  rw [csort_idem, csort_length]

end tick

namespace tick

lemma count_filter_eq (l : List ℚ) (P : ℚ → Prop) [DecidablePred P] (x : ℚ) :
    (l.filter (fun a => decide (P a))).count x = if P x then l.count x else 0 := by
  by_cases h : P x
  · rw [if_pos h, List.count_filter (by simpa using h)]
  · rw [if_neg h, List.count_eq_zero]
    intro hmem
    exact h (by simpa using (List.mem_filter.mp hmem).2)

lemma clamp_eq_max (c : ℚ) : (if c < 0 then 0 else c) = max 0 c := by
  rcases lt_or_le c 0 with h | h
  · rw [if_pos h, max_eq_left h.le]
  · rw [if_neg (not_lt.mpr h), max_eq_right h]

lemma filter_outliers_ne_nil {v : List ℚ} (hv : v ≠ []) : filter_outliers v ≠ [] := by
  have hsne : csort v ≠ [] := by
    intro h
    apply length_ne_zero hv
    rw [← csort_length v, h, List.length_nil]
  have hq13 : percentile (csort v) (1/4) ≤ percentile (csort v) (3/4) :=
    percentile_mono hsne (by norm_num) (by norm_num)
  have hmem : percentile (csort v) (1/4) ∈ csort v :=
    percentile_mem hsne (by norm_num)
  have hiqr : (0 : ℚ) ≤ percentile (csort v) (3/4) - percentile (csort v) (1/4) :=
    sub_nonneg.mpr hq13
  have hlo : percentile (csort v) (1/4) - 3/2 *
      (percentile (csort v) (3/4) - percentile (csort v) (1/4)) ≤
      percentile (csort v) (1/4) := by nlinarith
  have hhi : percentile (csort v) (1/4) ≤ percentile (csort v) (3/4) + 3/2 *
      (percentile (csort v) (3/4) - percentile (csort v) (1/4)) := by nlinarith
  simp only [filter_outliers]
  apply List.ne_nil_of_mem (List.mem_filter.mpr ⟨hmem, ?_⟩)
  simp only [decide_eq_true_eq]
  exact ⟨hlo, hhi⟩

unseal Rat.inv Rat.mul Rat.add Rat.sub in
lemma filter_outliers_ex : filter_outliers [1, 2, 3, 4, 5, 100] = [1, 2, 3, 4, 5] := by
  decide

end tick

namespace tick

/-- C1: after `run` returns, `samples` has length exactly `iterations`; a
second `run` first clears the stored samples and refills them, so the
length is again exactly `iterations` regardless of the prior contents. -/
theorem run_sampleset_length (b : Benchmark) (raw raw2 : ℕ → ℚ) (o o2 : ℚ) :
    (b.run raw o).samples.length = b.iterations ∧
    ((b.run raw o).run raw2 o2).samples.length = b.iterations := by
  constructor <;> simp [Benchmark.run]

unseal Rat.inv Rat.mul Rat.add Rat.sub in
/-- C4 (counterexample): on the 6-element input `[1,2,3,4,5,100]` the
nearest-rank third quartile computed by the code is `s[floor(0.75*5)] =
s[3] = 4`, not `4.5` as the claim states (4.5 is not even a member of the
set, so no nearest-rank percentile could produce it). -/
theorem percentile_q3_not_four_point_five :
    ¬ percentile [1, 2, 3, 4, 5, 100] (3/4) = 9/2 := by
  decide

unseal Rat.inv Rat.mul Rat.add Rat.sub in
/-- C4 (amended): on `[1,2,3,4,5,100]`, `filter_outliers` removes `100`:
Q1 = 2 and Q3 = 4 under the code's nearest-rank percentile, so the
IQR-based upper fence is `4 + 1.5*2 = 7 < 100` and the result is
`[1,2,3,4,5]`. -/
theorem filter_outliers_removes_hundred :
    filter_outliers [1, 2, 3, 4, 5, 100] = [1, 2, 3, 4, 5] ∧
    percentile [1, 2, 3, 4, 5, 100] (1/4) = 2 ∧
    percentile [1, 2, 3, 4, 5, 100] (3/4) = 4 ∧
    percentile [1, 2, 3, 4, 5, 100] (3/4) + 3/2 *
      (percentile [1, 2, 3, 4, 5, 100] (3/4) -
        percentile [1, 2, 3, 4, 5, 100] (1/4)) < 100 := by
  refine ⟨filter_outliers_ex, by decide, by decide, by decide⟩

/-- C5: every sample stored by `run` equals `max(0, raw - overhead)` for
the measured raw duration of some iteration, hence every element of
`samples` is non-negative after every run. -/
theorem run_samples_clamped (b : Benchmark) (raw : ℕ → ℚ) (o : ℚ) :
    ∀ x ∈ (b.run raw o).samples, 0 ≤ x ∧ ∃ i, i < b.iterations ∧ x = max 0 (raw i - o) := by
  intro x hx
  simp only [Benchmark.run, List.mem_map, List.mem_range] at hx
  obtain ⟨i, hi, hxe⟩ := hx
  simp only [clamp_eq_max] at hxe
  exact ⟨hxe ▸ le_max_left 0 _, i, hi, hxe.symm⟩

unseal Rat.inv Rat.mul Rat.add Rat.sub in
/-- C5 witness: a 1-iteration run with raw duration 5 ms and overhead 2 ms
stores the sample 3 = max(0, 5-2) ≥ 0. -/
theorem run_samples_clamped_witness :
    0 ≤ (3 : ℚ) ∧ ∃ i, i < 1 ∧ (3 : ℚ) = max 0 ((fun _ : ℕ => (5 : ℚ)) i - 2) :=
  run_samples_clamped ⟨1, 0, 1, []⟩ (fun _ => 5) 2 3 (by decide)

end tick

namespace tick

unseal Rat.inv Rat.mul Rat.add Rat.sub in
/-- C2: for `p ∈ [0,1]` and non-empty input, `percentile` reads the
ascending sort of the samples at index `floor(p * (N-1))` (nearest-rank,
no interpolation: the result is an element of the sorted permutation of
the input); on `[1,2,3,4,5]` it yields 3 at p = 1/2, 1 at p = 0 and 5 at
p = 1. -/
theorem percentile_nearest_rank (v : List ℚ) (p : ℚ) (hv : v ≠ [])
    (h0 : 0 ≤ p) (h1 : p ≤ 1) :
    (csort v).Sorted (· ≤ ·) ∧
    List.Perm (csort v) v ∧
    ((v.length - 1 : ℕ) : ℚ) = (v.length : ℚ) - 1 ∧
    (∃ h : (⌊p * ((v.length - 1 : ℕ) : ℚ)⌋).toNat < (csort v).length,
      percentile v p = (csort v).get ⟨(⌊p * ((v.length - 1 : ℕ) : ℚ)⌋).toNat, h⟩) ∧
    percentile [1, 2, 3, 4, 5] (1/2) = 3 ∧
    percentile [1, 2, 3, 4, 5] 0 = 1 ∧
    percentile [1, 2, 3, 4, 5] 1 = 5 := by
  have hlen : 1 ≤ v.length := Nat.one_le_iff_ne_zero.mpr (length_ne_zero hv)
  refine ⟨csort_sorted v, csort_perm v, ?_, percentile_eq_get hv h1,
    by decide, by decide, by decide⟩
  push_cast [hlen]
  ring

/-- C2 witness at `v = [1,2,3,4,5]`, `p = 1/2`. -/
theorem percentile_nearest_rank_witness :
    (csort [1, 2, 3, 4, 5]).Sorted (· ≤ ·) ∧
    List.Perm (csort [1, 2, 3, 4, 5]) [1, 2, 3, 4, 5] ∧
    ((([1, 2, 3, 4, 5] : List ℚ).length - 1 : ℕ) : ℚ) =
      ((([1, 2, 3, 4, 5] : List ℚ).length : ℚ)) - 1 ∧
    (∃ h : (⌊(1/2 : ℚ) * ((([1, 2, 3, 4, 5] : List ℚ).length - 1 : ℕ) : ℚ)⌋).toNat <
        (csort [1, 2, 3, 4, 5]).length,
      percentile [1, 2, 3, 4, 5] (1/2) = (csort [1, 2, 3, 4, 5]).get
        ⟨(⌊(1/2 : ℚ) * ((([1, 2, 3, 4, 5] : List ℚ).length - 1 : ℕ) : ℚ)⌋).toNat, h⟩) ∧
    percentile [1, 2, 3, 4, 5] (1/2) = 3 ∧
    percentile [1, 2, 3, 4, 5] 0 = 1 ∧
    percentile [1, 2, 3, 4, 5] 1 = 5 :=
  percentile_nearest_rank [1, 2, 3, 4, 5] (1/2) (by decide) (by norm_num) (by norm_num)

/-- C3: `filter_outliers` returns a sorted list, a sub-permutation (subset
by value with duplicates preserved) of its input, containing each value
`x` exactly as often as the input does when `x` lies inside the closed
Tukey fences `[q1 - 1.5*iqr, q3 + 1.5*iqr]` and never otherwise. -/
theorem filter_outliers_spec (v : List ℚ) :
    (filter_outliers v).Sorted (· ≤ ·) ∧
    List.Subperm (filter_outliers v) v ∧
    (∀ x : ℚ, (filter_outliers v).count x =
      if percentile v (1/4) - 3/2 * (percentile v (3/4) - percentile v (1/4)) ≤ x ∧
         x ≤ percentile v (3/4) + 3/2 * (percentile v (3/4) - percentile v (1/4))
      then v.count x else 0) := by
  refine ⟨?_, ?_, ?_⟩
  · exact (csort_sorted v).sublist (List.filter_sublist _)
  · exact (List.filter_sublist _).subperm.trans (csort_perm v).subperm
  · intro x
    simp only [filter_outliers, percentile_csort]
    rw [count_filter_eq]
    congr 1
    exact (csort_perm v).count_eq x

end tick

namespace tick

lemma mean_replicate {n : ℕ} (hn : 0 < n) (c : ℚ) :
    mean (List.replicate n c) = c := by
  unfold mean
  rw [List.sum_replicate, List.length_replicate, nsmul_eq_mul]
  have hne : (n : ℚ) ≠ 0 := Nat.cast_ne_zero.mpr hn.ne'
  field_simp

/-- C6: `stddev` is the population standard deviation: its square times N
recovers the raw sum of squared deviations (so the divisor is N, not N-1,
which the concrete value `stddev [0,2] 1 = 1` — rather than `sqrt 2` —
pins down); `mean` and `stddev` of the constant sequence
`replicate n c` are `c` and `0`. -/
theorem stddev_population (n : ℕ) (c : ℚ) (hn : 0 < n) :
    mean (List.replicate n c) = c ∧
    stddev (List.replicate n c) (mean (List.replicate n c)) = 0 ∧
    (∀ (v : List ℚ) (a : ℚ),
      stddev v a ^ 2 * (v.length : ℝ) =
        (((v.map (fun x => (x - a) * (x - a))).sum : ℚ) : ℝ)) ∧
    stddev [0, 2] 1 = 1 := by
  refine ⟨mean_replicate hn c, ?_, ?_, ?_⟩
  · rw [mean_replicate hn c]
    unfold stddev
    rw [List.map_replicate]
    simp
  · intro v a
    unfold stddev
    have hnum : (0 : ℚ) ≤ (v.map (fun x => (x - a) * (x - a))).sum := by
      apply List.sum_nonneg
      intro y hy
      obtain ⟨x, hx, rfl⟩ := List.mem_map.mp hy
      exact mul_self_nonneg _
    rcases eq_or_ne v [] with rfl | hv
    · simp
    · have hlen : ((v.length : ℝ)) ≠ 0 :=
        Nat.cast_ne_zero.mpr (length_ne_zero hv)
      rw [Real.sq_sqrt (div_nonneg (by exact_mod_cast hnum) (Nat.cast_nonneg _))]
      exact div_mul_cancel₀ _ hlen
  · unfold stddev
    norm_num

/-- C6 witness at `n = 3`, `c = 7`. -/
theorem stddev_population_witness :
    0 < 3 ∧
    (mean (List.replicate 3 (7 : ℚ)) = 7 ∧
     stddev (List.replicate 3 (7 : ℚ)) (mean (List.replicate 3 (7 : ℚ))) = 0 ∧
     (∀ (v : List ℚ) (a : ℚ),
       stddev v a ^ 2 * (v.length : ℝ) =
         (((v.map (fun x => (x - a) * (x - a))).sum : ℚ) : ℝ)) ∧
     stddev [0, 2] 1 = 1) :=
  ⟨by decide, stddev_population 3 7 (by decide)⟩

end tick

namespace tick

/-- C7: with a non-empty sample set and an openable file, Truncate always
produces exactly one header and one data row whatever the file held
before (so two Truncate calls leave one header + one row); Append to a
non-existent file writes header + one row, and a second Append appends
exactly one more data row with no duplicate header. -/
theorem export_csv_header_discipline (b b2 : Benchmark)
    (hb : b.samples ≠ []) (hb2 : b2.samples ≠ []) :
    (∀ fs : Option (List CsvLine),
      b.export_csv CsvWriteMode.Truncate true fs =
        some [CsvLine.header, CsvLine.row b.report]) ∧
    b.export_csv CsvWriteMode.Append true none =
      some [CsvLine.header, CsvLine.row b.report] ∧
    b2.export_csv CsvWriteMode.Append true
        (b.export_csv CsvWriteMode.Append true none) =
      some [CsvLine.header, CsvLine.row b.report, CsvLine.row b2.report] := by
  have happ : b.export_csv CsvWriteMode.Append true none =
      some [CsvLine.header, CsvLine.row b.report] := by
    simp [Benchmark.export_csv, hb]
  refine ⟨fun fs => ?_, happ, ?_⟩
  · simp [Benchmark.export_csv, hb]
  · rw [happ]
    simp [Benchmark.export_csv, hb2]

/-- C7 witness at two concrete one-sample benchmarks. -/
theorem export_csv_header_discipline_witness :
    (∀ fs : Option (List CsvLine),
      Benchmark.export_csv ⟨1, 0, 1, [1]⟩ CsvWriteMode.Truncate true fs =
        some [CsvLine.header, CsvLine.row (Benchmark.report ⟨1, 0, 1, [1]⟩)]) ∧
    Benchmark.export_csv ⟨1, 0, 1, [1]⟩ CsvWriteMode.Append true none =
      some [CsvLine.header, CsvLine.row (Benchmark.report ⟨1, 0, 1, [1]⟩)] ∧
    Benchmark.export_csv ⟨2, 0, 1, [2]⟩ CsvWriteMode.Append true
        (Benchmark.export_csv ⟨1, 0, 1, [1]⟩ CsvWriteMode.Append true none) =
      some [CsvLine.header, CsvLine.row (Benchmark.report ⟨1, 0, 1, [1]⟩),
        CsvLine.row (Benchmark.report ⟨2, 0, 1, [2]⟩)] :=
  export_csv_header_discipline ⟨1, 0, 1, [1]⟩ ⟨2, 0, 1, [2]⟩ (by decide) (by decide)

/-- C8: with an empty sample set, `print_stats` produces no console output
and `export_csv` leaves the file untouched in every mode; and whenever the
report file cannot be opened, `export_csv` silently leaves it untouched
and raises nothing. -/
theorem empty_and_unopenable_silent (b : Benchmark) (mode : CsvWriteMode)
    (canOpen : Bool) (fs : Option (List CsvLine)) (hb : b.samples = []) :
    b.print_stats = none ∧
    b.export_csv mode canOpen fs = fs ∧
    (∀ (b2 : Benchmark) (m : CsvWriteMode) (f : Option (List CsvLine)),
      b2.export_csv m false f = f) := by
  refine ⟨by simp [Benchmark.print_stats, hb],
    by simp [Benchmark.export_csv, hb], ?_⟩
  intro b2 m f
  unfold Benchmark.export_csv
  split
  · rfl
  · simp

/-- C8 witness at a concrete empty benchmark. -/
theorem empty_and_unopenable_silent_witness :
    Benchmark.print_stats ⟨10, 0, 1, []⟩ = none ∧
    Benchmark.export_csv ⟨10, 0, 1, []⟩ CsvWriteMode.Truncate true (some [CsvLine.header]) =
      some [CsvLine.header] ∧
    (∀ (b2 : Benchmark) (m : CsvWriteMode) (f : Option (List CsvLine)),
      b2.export_csv m false f = f) :=
  empty_and_unopenable_silent ⟨10, 0, 1, []⟩ CsvWriteMode.Truncate true
    (some [CsvLine.header]) rfl

end tick

namespace tick

unseal Rat.inv Rat.mul Rat.add Rat.sub in
/-- C9: every reported statistic is computed from the outlier-filtered
copy of `samples` (never from the raw vector — witnessed concretely by the
report mean 3 of `[1,2,3,4,5,100]`, whose raw mean is 115/6), the report
is recomputed fresh by `print_stats`, and the caller-visible `samples` is
untouched: the statistics helpers receive by-value copies, modelled here
by pure functions of the unchanged `b`. -/
theorem report_from_cleaned (b : Benchmark) (hb : b.samples ≠ []) :
    b.print_stats = some b.report ∧
    b.report.samples_used = (filter_outliers b.samples).length ∧
    b.report.min_t = listMin (filter_outliers b.samples) ∧
    b.report.max_t = listMax (filter_outliers b.samples) ∧
    b.report.avg = mean (filter_outliers b.samples) ∧
    b.report.sd = stddev (filter_outliers b.samples)
      (mean (filter_outliers b.samples)) ∧
    b.report.p50 = percentile (filter_outliers b.samples) (50/100) ∧
    b.report.p90 = percentile (filter_outliers b.samples) (90/100) ∧
    b.report.p95 = percentile (filter_outliers b.samples) (95/100) ∧
    b.report.p99 = percentile (filter_outliers b.samples) (99/100) ∧
    b.report.per_op_avg = mean (filter_outliers b.samples) / (b.batch_size : ℚ) ∧
    (Benchmark.report ⟨6, 0, 1, [1, 2, 3, 4, 5, 100]⟩).avg = 3 ∧
    mean [1, 2, 3, 4, 5, 100] = 115/6 ∧
    (3 : ℚ) ≠ 115/6 := by
  refine ⟨by simp [Benchmark.print_stats, hb], rfl, rfl, rfl, rfl, rfl, rfl,
    rfl, rfl, rfl, rfl, ?_, by decide, by decide⟩
  rw [show (Benchmark.report ⟨6, 0, 1, [1, 2, 3, 4, 5, 100]⟩).avg =
    mean (filter_outliers [1, 2, 3, 4, 5, 100]) from rfl, filter_outliers_ex]
  decide

unseal Rat.inv Rat.mul Rat.add Rat.sub in
/-- C9 witness at a concrete benchmark over `[1,2,3,4,5,100]`. -/
theorem report_from_cleaned_witness :
    Benchmark.print_stats ⟨6, 0, 1, [1, 2, 3, 4, 5, 100]⟩ =
      some (Benchmark.report ⟨6, 0, 1, [1, 2, 3, 4, 5, 100]⟩) ∧
    (Benchmark.report ⟨6, 0, 1, [1, 2, 3, 4, 5, 100]⟩).samples_used =
      (filter_outliers [1, 2, 3, 4, 5, 100]).length ∧
    (Benchmark.report ⟨6, 0, 1, [1, 2, 3, 4, 5, 100]⟩).min_t =
      listMin (filter_outliers [1, 2, 3, 4, 5, 100]) ∧
    (Benchmark.report ⟨6, 0, 1, [1, 2, 3, 4, 5, 100]⟩).max_t =
      listMax (filter_outliers [1, 2, 3, 4, 5, 100]) ∧
    (Benchmark.report ⟨6, 0, 1, [1, 2, 3, 4, 5, 100]⟩).avg =
      mean (filter_outliers [1, 2, 3, 4, 5, 100]) ∧
    (Benchmark.report ⟨6, 0, 1, [1, 2, 3, 4, 5, 100]⟩).sd =
      stddev (filter_outliers [1, 2, 3, 4, 5, 100])
        (mean (filter_outliers [1, 2, 3, 4, 5, 100])) ∧
    (Benchmark.report ⟨6, 0, 1, [1, 2, 3, 4, 5, 100]⟩).p50 =
      percentile (filter_outliers [1, 2, 3, 4, 5, 100]) (50/100) ∧
    (Benchmark.report ⟨6, 0, 1, [1, 2, 3, 4, 5, 100]⟩).p90 =
      percentile (filter_outliers [1, 2, 3, 4, 5, 100]) (90/100) ∧
    (Benchmark.report ⟨6, 0, 1, [1, 2, 3, 4, 5, 100]⟩).p95 =
      percentile (filter_outliers [1, 2, 3, 4, 5, 100]) (95/100) ∧
    (Benchmark.report ⟨6, 0, 1, [1, 2, 3, 4, 5, 100]⟩).p99 =
      percentile (filter_outliers [1, 2, 3, 4, 5, 100]) (99/100) ∧
    (Benchmark.report ⟨6, 0, 1, [1, 2, 3, 4, 5, 100]⟩).per_op_avg =
      mean (filter_outliers [1, 2, 3, 4, 5, 100]) / ((1 : ℕ) : ℚ) ∧
    (Benchmark.report ⟨6, 0, 1, [1, 2, 3, 4, 5, 100]⟩).avg = 3 ∧
    mean [1, 2, 3, 4, 5, 100] = 115/6 ∧
    (3 : ℚ) ≠ 115/6 :=
  report_from_cleaned ⟨6, 0, 1, [1, 2, 3, 4, 5, 100]⟩ (by decide)

/-- C10: on a non-empty input `filter_outliers` never returns the empty
list (the value at the first quartile always lies inside the Tukey fences
since `iqr ≥ 0` on a sorted copy); hence behind the empty-`samples`
early-return guards of `print_stats` and `export_csv`, `mean`'s divisor is
never zero and `percentile`'s index — whose `size_t` expression `N-1`
would wrap on an empty vector — stays in bounds for every `p ∈ [0,1]`. -/
theorem filter_outliers_nonempty_safety (v : List ℚ) (p : ℚ) (hv : v ≠ [])
    (h0 : 0 ≤ p) (h1 : p ≤ 1) :
    filter_outliers v ≠ [] ∧
    (filter_outliers v).length ≠ 0 ∧
    pidx v.length p < v.length ∧
    (∀ b : Benchmark, b.samples = [] →
      b.print_stats = none ∧
      ∀ (m : CsvWriteMode) (c : Bool) (f : Option (List CsvLine)),
        b.export_csv m c f = f) := by
  refine ⟨filter_outliers_ne_nil hv, length_ne_zero (filter_outliers_ne_nil hv),
    pidx_lt (length_ne_zero hv) p h1, ?_⟩
  intro b hb
  exact ⟨by simp [Benchmark.print_stats, hb],
    fun m c f => by simp [Benchmark.export_csv, hb]⟩

/-- C10 witness at `v = [1,2,3,4,5]`, `p = 1/2`. -/
theorem filter_outliers_nonempty_safety_witness :
    filter_outliers [1, 2, 3, 4, 5] ≠ [] ∧
    (filter_outliers [1, 2, 3, 4, 5]).length ≠ 0 ∧
    pidx ([1, 2, 3, 4, 5] : List ℚ).length (1/2) < ([1, 2, 3, 4, 5] : List ℚ).length ∧
    (∀ b : Benchmark, b.samples = [] →
      b.print_stats = none ∧
      ∀ (m : CsvWriteMode) (c : Bool) (f : Option (List CsvLine)),
        b.export_csv m c f = f) :=
  filter_outliers_nonempty_safety [1, 2, 3, 4, 5] (1/2) (by decide)
    (by norm_num) (by norm_num)

end tick
